import Mathlib

/-!
Verification development for the llmjs multi-provider chat-completion client.

The source (src/unnamed/part_001) defines the classes Ai, AiWithHistory,
GroqAi, GroqAiWithHistory, MistralAi, MistralAiWithHistory, MultiProviderAi,
MultiProviderAiWithHistory and AiMemoryStore.  The request-resolution engine
(sequential fallback and first-to-finish racing) is textually repeated in each
class with identical control flow; it is embedded here once, parameterized by
the per-model attempt function.  Concurrency in racing mode is embedded by an
explicit chronological completion schedule: a list giving the order in which
the launched attempts settle, processed by a fold over the single-threaded
event-loop steps of the source.
-/

/-- Error values thrown by the library.  Each constructor corresponds to one
of the `new Error(...)` sites of the source; messages are abstracted to the
data they carry. -/
inductive AiError where
  | timeout (model : String)
  | providerError (model : String) (msg : String)
  | emptyResponse (model : String)
  | noModels
  | allFailed
  | missingChatId
  | missingInputs
  | noCapableProviders
  | missingFile
deriving DecidableEq, Repr, Inhabited

deriving instance DecidableEq for Except

/-- Verdict of one attempt after classification, as in the source: a success
carries the response text, a failure carries the thrown error. -/
inductive Outcome where
  | success (text : String)
  | failure (e : AiError)
deriving DecidableEq, Repr

def Outcome.isFailure : Outcome → Bool
  | .failure _ => true
  | .success _ => false

/-- Cause of a failure outcome (junk default on success). -/
def Outcome.causeD : Outcome → AiError
  | .failure e => e
  | .success _ => .allFailed

/-- The network boundary for one model: either the extracted response text of
a completed call (`extractText(response)` in the source, before the final
trim of `ask`), or the thrown error (provider error or timeout). -/
abbrev Net := String → Except AiError String

/-- JavaScript `String.prototype.trim`: drop whitespace from both ends.
Implemented structurally on the character list so that the kernel can
evaluate it (the builtin `String.trim` does not reduce). -/
def jsTrim (s : String) : String :=
  ⟨((s.data.dropWhile Char.isWhitespace).reverse.dropWhile
      Char.isWhitespace).reverse⟩

/-- One attempt of `Ai.ask` on one model (part_001 lines 512-541): the network
call either throws, or yields text that is trimmed and, when empty, rethrown
as `Empty response from model`. -/
def runAttempt (net : Net) (m : String) : Outcome :=
  match net m with
  | .error e => .failure e
  | .ok raw =>
    let text := jsTrim raw
    if text = "" then .failure (.emptyResponse m) else .success text

/-- Observable outcome of one full `ask`-style resolution run: the resolved
or rejected promise value, the recorded winner (`lastUsedModel`, `none` when
the call did not set it), the models on which an attempt was started, the
failures logged via `console.error`, and how many times the settle
(resolve or reject) transition fired. -/
structure AskResult where
  result : Except AiError String
  winner : Option String
  attempted : List String
  failLog : List (String × AiError)
  settleCount : Nat
deriving DecidableEq, Repr

/-- Sequential fallback loop (part_001 lines 509-551): try each model in
roster order, return on the first success, remember the last error
otherwise; on exhaustion throw the last error
(`throw lastError || new Error("All AI models failed")`). -/
def seqGo (att : String → Outcome) : List String → Option AiError → AskResult
  | [], lastErr =>
    { result := .error (lastErr.getD .allFailed), winner := none,
      attempted := [], failLog := [], settleCount := 1 }
  | m :: rest, _lastErr =>
    match att m with
    | .success t =>
      { result := .ok t, winner := some m, attempted := [m], failLog := [],
        settleCount := 1 }
    | .failure e =>
      let r := seqGo att rest (some e)
      { r with attempted := m :: r.attempted, failLog := (m, e) :: r.failLog }

/-- State of the racing promise executor (part_001 lines 553-608): the
`settled` flag, the resolve value and `lastUsedModel` recorded by the first
settle, the reject value, the running `lastError`, the `remaining` counter,
the number of settle transitions taken, and the failure log. -/
structure RaceState where
  settled : Bool
  resolvedText : Option String
  winner : Option String
  rejectedWith : Option AiError
  lastErr : Option AiError
  remaining : Nat
  settleCount : Nat
  failLog : List (String × AiError)
deriving DecidableEq, Repr

/-- The `finally` block of each racing attempt: decrement `remaining` and,
when nothing settled and no attempt is left, reject with
`lastError || new Error("All AI models failed")`. -/
def raceFinally (st : RaceState) : RaceState :=
  let st1 := { st with remaining := st.remaining - 1 }
  if st1.settled = false ∧ st1.remaining = 0 then
    { st1 with
      settled := true,
      rejectedWith := some (st1.lastErr.getD .allFailed),
      settleCount := st1.settleCount + 1 }
  else st1

/-- Completion of one racing attempt: on success resolve if not yet settled
(recording the winner), on failure update `lastError` and log; then run the
`finally` block. -/
def raceStep (att : String → Outcome) (st : RaceState) (m : String) :
    RaceState :=
  match att m with
  | .success t =>
    let st1 :=
      if st.settled = false then
        { st with
          settled := true,
          resolvedText := some t,
          winner := some m,
          settleCount := st.settleCount + 1 }
      else st
    raceFinally st1
  | .failure e =>
    raceFinally { st with lastErr := some e, failLog := st.failLog ++ [(m, e)] }

def raceInit (n : Nat) : RaceState :=
  { settled := false, resolvedText := none, winner := none,
    rejectedWith := none, lastErr := none, remaining := n, settleCount := 0,
    failLog := [] }

/-- Racing mode: every model of the roster is launched; the attempts then
complete in the chronological order given by `schedule`, each completion
running `raceStep`.  The promise value is the resolve value when one was
recorded, the reject value otherwise. -/
def raceRun (att : String → Outcome) (models schedule : List String) :
    AskResult :=
  let st := schedule.foldl (raceStep att) (raceInit models.length)
  { result :=
      match st.resolvedText with
      | some t => .ok t
      | none => .error (st.rejectedWith.getD .allFailed),
    winner := st.winner, attempted := models, failLog := st.failLog,
    settleCount := st.settleCount }

/-- Mode dispatch shared by every `ask` of the source:
`if (!this.firstToFinish || this.models.length === 1)` run the sequential
loop, otherwise race. -/
def resolveStrategy (att : String → Outcome) (models : List String)
    (firstToFinish : Bool) (schedule : List String) : AskResult :=
  if firstToFinish = false ∨ models.length = 1 then seqGo att models none
  else raceRun att models schedule

/-- Configuration relevant to resolution: the constructed roster
`this.models` and the `firstToFinish` flag. -/
structure AiConfig where
  models : List String
  firstToFinish : Bool
deriving DecidableEq, Repr

/-- `Ai.ask` (part_001 lines 497-609): guard against an empty roster, then
resolve sequentially or by racing. -/
def Ai.ask (cfg : AiConfig) (net : Net) (schedule : List String) : AskResult :=
  if cfg.models = [] then
    { result := .error .noModels, winner := none, attempted := [],
      failLog := [], settleCount := 1 }
  else resolveStrategy (runAttempt net) cfg.models cfg.firstToFinish schedule

/-- JavaScript truthiness of an optional string: `none` stands for
null or undefined, the empty string is falsy. -/
def jsStrTruthy : Option String → Bool
  | none => false
  | some s => s != ""

/-- Roster construction of the Ai constructor (part_001 line 218):
`this.models = [model, ...fallbackModels].filter(Boolean)`.  The same line
appears in the GroqAi and MistralAi constructors. -/
def Ai.mkModels (model : Option String) (fallbackModels : List (Option String)) :
    List String :=
  ((model :: fallbackModels).filter jsStrTruthy).filterMap id

/-- Spec-side roster definition for claim C5, written from the words of the
spec: the primary entry first, then the fallback entries in their given
order, with every falsy (missing or empty) entry removed and nothing else
changed. -/
def specRoster (primary : Option String) (fallbacks : List (Option String)) :
    List String :=
  (match primary with
   | some s => if s = "" then [] else [s]
   | none => []) ++
    fallbacks.foldr
      (fun o acc =>
        match o with
        | some s => if s = "" then acc else s :: acc
        | none => acc) []

/-- Stored message content.  The source stores `string|Array|Record`; arrays
of content parts are kept abstract as lists of part descriptions, plain
objects are collapsed to one constructor. -/
inductive Content where
  | null
  | str (s : String)
  | arr (parts : List String)
  | obj
deriving DecidableEq, Repr

/-- JavaScript truthiness of a content value: null and the empty string are
falsy, every array (including the empty one) and every object is truthy. -/
def Content.jsTruthy : Content → Bool
  | .null => false
  | .str s => s != ""
  | .arr _ => true
  | .obj => true

/-- Spec-side emptiness of a content value for claim C7, written from the
words of the spec: content counts as empty when it is null, the empty
string, or an empty sequence of parts. -/
def Content.isEmptyVal : Content → Bool
  | .null => true
  | .str s => s == ""
  | .arr parts => parts.isEmpty
  | .obj => false

/-- One incoming message of `appendMessages`. -/
structure Msg where
  role : String
  content : Content
deriving DecidableEq, Repr

/-- The filter of `appendMessages` (part_001 line 134):
`msg && msg.role && msg.content`. -/
def Msg.valid (m : Msg) : Bool :=
  m.role != "" && m.content.jsTruthy

/-- One persisted document of the memory collection.  The Mongo `_id` is
modeled by `createdAt`, which the store model keeps unique (each insertion
gets a fresh strictly larger timestamp). -/
structure Doc where
  chatId : String
  scope : String
  role : String
  content : Content
  createdAt : Nat
deriving DecidableEq, Repr

/-- The memory collection: documents in insertion order plus the logical
clock handing out insertion timestamps. -/
structure Store where
  docs : List Doc
  clock : Nat
deriving DecidableEq, Repr

def docMatches (chatId scope : String) (d : Doc) : Bool :=
  d.chatId == chatId && d.scope == scope

/-- The `(scope, chatId)` partition of the collection, in insertion order. -/
def partitionOf (st : Store) (chatId scope : String) : List Doc :=
  st.docs.filter (docMatches chatId scope)

/-- The `$sort: { createdAt: -1 }` stage of the trim pipeline. -/
def sortDescByCreatedAt (l : List Doc) : List Doc :=
  List.insertionSort (fun a b => b.createdAt ≤ a.createdAt) l

/-- Documents built from the valid messages (part_001 lines 135-141), each
stamped with the next insertion timestamp. -/
def mkDocs (chatId scope : String) : Nat → List Msg → List Doc
  | _, [] => []
  | clock, m :: rest =>
    { chatId := chatId, scope := scope, role := m.role, content := m.content,
      createdAt := clock } :: mkDocs chatId scope (clock + 1) rest

/-- Insert-and-trim body of `AiMemoryStore.appendMessages` (part_001 lines
131-169): insert the documents built from the valid messages, then trim the
`(chatId, scope)` partition to the newest `maxEntries = 80` documents by
deleting the ids produced by the match / sort createdAt desc / skip 80
pipeline. -/
def appendCore (st : Store) (chatId scope : String) (valid : List Msg) :
    Store :=
  let newDocs := mkDocs chatId scope st.clock valid
  let inserted := st.docs ++ newDocs
  let sorted := sortDescByCreatedAt (inserted.filter (docMatches chatId scope))
  let staleTimes := (sorted.drop 80).map (fun d => d.createdAt)
  let kept := inserted.filter (fun d => !(staleTimes.contains d.createdAt))
  { docs := kept, clock := st.clock + valid.length }

/-- `AiMemoryStore.appendMessages` (part_001 lines 122-170): guard against
falsy chatId, scope or an empty message list, drop messages with falsy role
or content, then insert and trim. -/
def appendMessages (st : Store) (chatId scope : String) (messages : List Msg) :
    Store :=
  if chatId = "" ∨ scope = "" ∨ messages = [] then st
  else
    let valid := messages.filter Msg.valid
    if valid = [] then st
    else appendCore st chatId scope valid

/-- `AiMemoryStore.getHistory` (part_001 lines 100-113): guard, fetch the
newest `limit` documents of the partition, reverse to chronological order,
project role and content, drop entries with falsy role or content. -/
def getHistory (st : Store) (chatId scope : String) (limit : Nat) :
    List (String × Content) :=
  if chatId = "" ∨ scope = "" then []
  else
    let docs := (sortDescByCreatedAt (partitionOf st chatId scope)).take limit
    (docs.reverse.map (fun d => (d.role, d.content))).filter
      (fun e => e.1 != "" && e.2.jsTruthy)

/-- Store well-formedness maintained by the model: insertion timestamps are
strictly increasing along the list and below the clock. -/
def Store.Wf (st : Store) : Prop :=
  st.docs.Pairwise (fun a b => a.createdAt < b.createdAt) ∧
    ∀ d ∈ st.docs, d.createdAt < st.clock

instance (st : Store) : Decidable st.Wf := by
  unfold Store.Wf
  exact inferInstance

/-- Observable outcome of a history-bound ask. -/
structure HistAskResult where
  result : Except AiError String
  historyReads : Nat
  attempted : List String
deriving Repr

/-- Shared body of `AiWithHistory.ask` (part_001 lines 660-705),
`GroqAiWithHistory.ask` (1163-1206), `MistralAiWithHistory.ask` (1739-1782)
and `MultiProviderAiWithHistory.ask` (2230-2277): each first throws when
`chatId` is falsy, then reads the history once via
`memoryStore.getHistory` and delegates to the underlying `ask`. -/
def askWithHistory (cfg : AiConfig) (net : Net) (schedule : List String)
    (st : Store) (scope : String) (historyLimit : Nat) (chatId : String) :
    HistAskResult :=
  if chatId = "" then
    { result := .error .missingChatId, historyReads := 0, attempted := [] }
  else
    let _history := getHistory st chatId scope historyLimit
    let r := Ai.ask cfg net schedule
    { result := r.result, historyReads := 1, attempted := r.attempted }

/-- One provider binding of MultiProviderAi, reduced to what `classify`
routing observes: whether the client exposes `classify`, and the outcome the
single delegated call would produce. -/
structure ProviderClient where
  hasClassify : Bool
  classifyOutcome : Except AiError String
deriving DecidableEq, Repr

/-- MultiProviderAi configuration: the provider bindings in registration
order (JavaScript object keys preserve insertion order), the primary
provider of the `model` option, and the racing flag. -/
structure MultiCfg where
  clients : List (String × ProviderClient)
  primaryProvider : Option String
  firstToFinish : Bool
deriving Repr

/-- `this.clients[provider]` lookup. -/
def MultiCfg.findClient (cfg : MultiCfg) (p : String) : Option ProviderClient :=
  (cfg.clients.find? (fun c => c.1 == p)).map (fun c => c.2)

/-- `MultiProviderAi.getOrderedProviders` (part_001 lines 1879-1889):
primary first when bound, then the remaining providers in registration
order. -/
def getOrderedProviders (cfg : MultiCfg) : List String :=
  let available := cfg.clients.map (fun c => c.1)
  if available.isEmpty then []
  else
    let preferred :=
      match cfg.primaryProvider with
      | some p => if p ≠ "" ∧ available.contains p then p else available.headD ""
      | none => available.headD ""
    preferred :: available.filter (fun q => q ≠ preferred)

/-- The `inputs` argument of `classify`: a string, an array of strings, or
null/undefined. -/
inductive ClassifyInputs where
  | nullv
  | str (s : String)
  | arr (l : List String)
deriving DecidableEq, Repr

/-- The guard of `classify`:
`inputs == null || (Array.isArray(inputs) && inputs.length === 0)`. -/
def classifyInputsInvalid : ClassifyInputs → Bool
  | .nullv => true
  | .str _ => false
  | .arr l => l.isEmpty

/-- The capable-provider list of `MultiProviderAi.classify` (part_001 lines
2018-2020): ordered providers whose client exposes `classify`. -/
def classifyProviders (cfg : MultiCfg) : List String :=
  (getOrderedProviders cfg).filter
    (fun p =>
      match cfg.findClient p with
      | some c => c.hasClassify
      | none => false)

/-- `MultiProviderAi.classify` (part_001 lines 2013-2031): validate inputs,
take exactly the first capable provider and delegate one call to it; its
outcome (success or thrown error) is returned unchanged.  The first
component of the result is the list of provider calls made. -/
def MultiProviderAi.classify (cfg : MultiCfg) (inputs : ClassifyInputs) :
    List String × Except AiError String :=
  if classifyInputsInvalid inputs then ([], .error .missingInputs)
  else
    match classifyProviders cfg with
    | [] => ([], .error .noCapableProviders)
    | p :: _ =>
      match cfg.findClient p with
      | some c => ([p], c.classifyOutcome)
      | none => ([p], .error .noCapableProviders)

/-- The transcription candidate list (part_001 lines 1055-1057 and
1579-1581):
`model ? [model] : this.models.length ? this.models : [default]`.
`modelArg = none` is an omitted or undefined argument, for which the
JavaScript default parameter substitutes `defaultModel`; an explicitly
passed falsy value (empty string, null) is `some ""`. -/
def transcribeModels (defaultModel : String) (roster : List String)
    (modelArg : Option String) : List String :=
  let model := modelArg.getD defaultModel
  if model ≠ "" then [model]
  else if roster ≠ [] then roster
  else [defaultModel]

/-- One `runOnce` transcription attempt (part_001 lines 1059-1088 and
1583-1610): the call either throws, or yields `resp?.text || ""`; empty text
throws, otherwise the trimmed text is returned. -/
def runTranscribeOnce (net : Net) (m : String) : Outcome :=
  match net m with
  | .error e => .failure e
  | .ok raw => if raw = "" then .failure (.emptyResponse m) else .success (jsTrim raw)

/-- `GroqAi.transcribe` (part_001 lines 1038-1132): require a file, build
the candidate list with default model `whisper-large-v3-turbo`, then run the
same sequential-or-racing resolution over it. -/
def GroqAi.transcribe (cfg : AiConfig) (net : Net) (fileGiven : Bool)
    (modelArg : Option String) (schedule : List String) : AskResult :=
  if fileGiven = false then
    { result := .error .missingFile, winner := none, attempted := [],
      failLog := [], settleCount := 1 }
  else
    resolveStrategy (runTranscribeOnce net)
      (transcribeModels "whisper-large-v3-turbo" cfg.models modelArg)
      cfg.firstToFinish schedule

/-- `MistralAi.transcribe` (part_001 lines 1537-1660): same resolution with
default model `voxtral-mini-latest`; the surrounding try/catch only logs and
rethrows. -/
def MistralAi.transcribe (cfg : AiConfig) (net : Net) (fileGiven : Bool)
    (modelArg : Option String) (schedule : List String) : AskResult :=
  if fileGiven = false then
    { result := .error .missingFile, winner := none, attempted := [],
      failLog := [], settleCount := 1 }
  else
    resolveStrategy (runTranscribeOnce net)
      (transcribeModels "voxtral-mini-latest" cfg.models modelArg)
      cfg.firstToFinish schedule

/-! ## Helper lemmas about outcomes and the sequential loop -/

theorem isFailure_exists {o : Outcome} (h : o.isFailure = true) :
    ∃ e, o = .failure e := by
  cases o with
  | success t => simp [Outcome.isFailure] at h
  | failure e => exact ⟨e, rfl⟩

theorem causeD_of_eq {o : Outcome} {e : AiError} (h : o = .failure e) :
    o.causeD = e := by
  subst h; rfl

theorem seqGo_wins (att : String → Outcome) (w t : String) (post : List String)
    (hwin : att w = .success t) :
    ∀ (pre : List String) (lastErr : Option AiError),
      (∀ m ∈ pre, (att m).isFailure = true) →
      seqGo att (pre ++ w :: post) lastErr =
        { result := .ok t, winner := some w, attempted := pre ++ [w],
          failLog := pre.map (fun m => (m, (att m).causeD)),
          settleCount := 1 } := by
  intro pre
  induction pre with
  | nil => intro lastErr _; simp [seqGo, hwin]
  | cons m pre ih =>
    intro lastErr hfail
    obtain ⟨e, he⟩ := isFailure_exists (hfail m (List.mem_cons_self m pre))
    have hrec := ih (some e) (fun x hx => hfail x (List.mem_cons_of_mem m hx))
    simp [seqGo, he, hrec, Outcome.causeD]

theorem seqGo_all_fail (att : String → Outcome) (lastM : String) :
    ∀ (init : List String) (lastErr : Option AiError),
      (∀ m ∈ init ++ [lastM], (att m).isFailure = true) →
      (seqGo att (init ++ [lastM]) lastErr).result =
        .error ((att lastM).causeD) := by
  intro init
  induction init with
  | nil =>
    intro lastErr hfail
    obtain ⟨e, he⟩ := isFailure_exists (hfail lastM (by simp))
    simp [seqGo, he, Outcome.causeD]
  | cons m init ih =>
    intro lastErr hfail
    obtain ⟨e, he⟩ := isFailure_exists (hfail m (by simp))
    have hrec := ih (some e) (fun x hx => hfail x (by simp at hx ⊢; tauto))
    simp [seqGo, he, hrec, Outcome.causeD]

theorem seqGo_singleton_attempted (att : String → Outcome) (m : String)
    (e0 : Option AiError) : (seqGo att [m] e0).attempted = [m] := by
  cases h : att m <;> simp [seqGo, h]

theorem filterTruthy_eq_foldr (l : List (Option String)) :
    (l.filter jsStrTruthy).filterMap id =
      l.foldr
        (fun o acc =>
          match o with
          | some s => if s = "" then acc else s :: acc
          | none => acc) [] := by
  induction l with
  | nil => rfl
  | cons o rest ih =>
    cases o with
    | none => simpa [jsStrTruthy] using ih
    | some s =>
      by_cases hs : s = "" <;> simp [jsStrTruthy, hs, ih]

/-- Claim C5: the constructed roster is the primary followed by the
fallbacks in their given order with all falsy or empty entries removed and
no other change; duplicate non-empty entries are preserved, and
`buildRoster "m1" ["", "m2", null, "m3"]` yields `["m1", "m2", "m3"]`. -/
theorem c5_roster_construction :
    (∀ (p : Option String) (fb : List (Option String)),
        Ai.mkModels p fb = specRoster p fb) ∧
    Ai.mkModels (some "m1") [some "", some "m2", none, some "m3"] =
      ["m1", "m2", "m3"] ∧
    Ai.mkModels (some "m1") [some "m2", some "m1", some "m2"] =
      ["m1", "m2", "m1", "m2"] := by
  refine ⟨fun p fb => ?_, by rfl, by rfl⟩
  cases p with
  | none =>
    simp [Ai.mkModels, specRoster, jsStrTruthy, List.filter,
      filterTruthy_eq_foldr fb]
  | some s =>
    by_cases hs : s = ""
    · simp [Ai.mkModels, specRoster, jsStrTruthy, hs, List.filter,
        filterTruthy_eq_foldr fb]
    · have hb : (s != "") = true := by simp [hs]
      simp [Ai.mkModels, specRoster, jsStrTruthy, hs, hb, List.filter,
        filterTruthy_eq_foldr fb]

/-- Claim C8: a history-bound ask called with a falsy chatId throws the
missing-chatId configuration error immediately: no history read happens and
no model attempt is started.  The embedding `askWithHistory` covers
`AiWithHistory.ask` and its Groq, Mistral and MultiProvider counterparts,
whose guards are identical. -/
theorem c8_missing_chat_id_fails_fast (cfg : AiConfig) (net : Net)
    (schedule : List String) (st : Store) (scope : String)
    (historyLimit : Nat) (chatId : String) (hfalsy : chatId = "") :
    askWithHistory cfg net schedule st scope historyLimit chatId =
      { result := .error .missingChatId, historyReads := 0,
        attempted := [] } := by
  simp [askWithHistory, hfalsy]

/-- Claim C8 witness: concrete falsy chatId, configured roster and
non-empty store; the call rejects with zero history reads and zero
attempts. -/
theorem c8_witness :
    askWithHistory ⟨["A", "B"], false⟩ (fun _ => .ok "hi") []
        ⟨[⟨"7", "default", "user", .str "old", 0⟩], 1⟩ "default" 10 "" =
      { result := .error .missingChatId, historyReads := 0,
        attempted := [] } :=
  c8_missing_chat_id_fails_fast ⟨["A", "B"], false⟩ (fun _ => .ok "hi") []
    ⟨[⟨"7", "default", "user", .str "old", 0⟩], 1⟩ "default" 10 "" rfl

/-- Claim C9: MultiProviderAi.classify is never raced and never falls back:
exactly the first capable provider in order is invoked (exactly one
provider call), its outcome (success or thrown error) is returned
unchanged, and the behavior is independent of the firstToFinish flag. -/
theorem c9_classify_first_capable_only (cfg : MultiCfg)
    (inputs : ClassifyInputs) (p : String) (rest : List String)
    (c : ProviderClient) (hvalid : classifyInputsInvalid inputs = false)
    (hcap : classifyProviders cfg = p :: rest)
    (hclient : cfg.findClient p = some c) :
    MultiProviderAi.classify cfg inputs = ([p], c.classifyOutcome) ∧
    ∀ b : Bool,
      MultiProviderAi.classify { cfg with firstToFinish := b } inputs =
        MultiProviderAi.classify cfg inputs := by
  constructor
  · simp [MultiProviderAi.classify, hvalid, hcap, hclient]
  · intro b; rfl

/-- Claim C9 witness: two bound providers, the primary lacking classify and
the call on the chosen provider failing; still only that second provider is
called, and the flag value does not matter. -/
theorem c9_witness :
    MultiProviderAi.classify
        ⟨[("groq", ⟨false, .ok "unused"⟩),
          ("mistral", ⟨true, .error (.providerError "mistral-moderation-latest" "boom")⟩)],
          some "groq", true⟩ (.str "hello") =
      (["mistral"], .error (.providerError "mistral-moderation-latest" "boom")) ∧
    ∀ b : Bool,
      MultiProviderAi.classify
          ⟨[("groq", ⟨false, .ok "unused"⟩),
            ("mistral", ⟨true, .error (.providerError "mistral-moderation-latest" "boom")⟩)],
            some "groq", b⟩ (.str "hello") =
        MultiProviderAi.classify
          ⟨[("groq", ⟨false, .ok "unused"⟩),
            ("mistral", ⟨true, .error (.providerError "mistral-moderation-latest" "boom")⟩)],
            some "groq", true⟩ (.str "hello") :=
  c9_classify_first_capable_only _ (.str "hello") "mistral" []
    ⟨true, .error (.providerError "mistral-moderation-latest" "boom")⟩
    rfl (by decide) rfl

/-- Claim C10, amended: whenever the model argument of transcribe is
omitted (so the default parameter applies) or is an explicitly passed
non-empty model id, the candidate list is the singleton of that model and
exactly one model is attempted, for GroqAi.transcribe and
MistralAi.transcribe alike, regardless of the firstToFinish flag and of the
configured roster. -/
theorem c10_transcribe_single_model (cfg : AiConfig) (net : Net)
    (modelArg : Option String) (schedule : List String)
    (hm : modelArg = none ∨ ∃ s, modelArg = some s ∧ s ≠ "") :
    transcribeModels "whisper-large-v3-turbo" cfg.models modelArg =
        [modelArg.getD "whisper-large-v3-turbo"] ∧
    (GroqAi.transcribe cfg net true modelArg schedule).attempted =
        [modelArg.getD "whisper-large-v3-turbo"] ∧
    transcribeModels "voxtral-mini-latest" cfg.models modelArg =
        [modelArg.getD "voxtral-mini-latest"] ∧
    (MistralAi.transcribe cfg net true modelArg schedule).attempted =
        [modelArg.getD "voxtral-mini-latest"] := by
  have hg : modelArg.getD "whisper-large-v3-turbo" ≠ "" := by
    rcases hm with h | ⟨s, hs, hne⟩
    · simp [h]
    · simp [hs, hne]
  have hv : modelArg.getD "voxtral-mini-latest" ≠ "" := by
    rcases hm with h | ⟨s, hs, hne⟩
    · simp [h]
    · simp [hs, hne]
  have h1 : transcribeModels "whisper-large-v3-turbo" cfg.models modelArg =
      [modelArg.getD "whisper-large-v3-turbo"] := by
    simp [transcribeModels, hg]
  have h2 : transcribeModels "voxtral-mini-latest" cfg.models modelArg =
      [modelArg.getD "voxtral-mini-latest"] := by
    simp [transcribeModels, hv]
  refine ⟨h1, ?_, h2, ?_⟩
  · simp [GroqAi.transcribe, h1, resolveStrategy, seqGo_singleton_attempted]
  · simp [MistralAi.transcribe, h2, resolveStrategy, seqGo_singleton_attempted]

/-- Claim C10 witness: a configured two-model roster with racing enabled is
still never consulted when a concrete model is passed or omitted: exactly
one transcription attempt happens. -/
theorem c10_witness :
    ((some "whisper-large-v3" : Option String) = none ∨
      ∃ s, (some "whisper-large-v3" : Option String) = some s ∧ s ≠ "") ∧
    transcribeModels "whisper-large-v3-turbo" ["a", "b"] (some "whisper-large-v3") =
      ["whisper-large-v3"] ∧
    (GroqAi.transcribe ⟨["a", "b"], true⟩ (fun _ => .ok "words") true
        (some "whisper-large-v3") ["a", "b"]).attempted = ["whisper-large-v3"] ∧
    transcribeModels "voxtral-mini-latest" ["a", "b"] (some "whisper-large-v3") =
      ["whisper-large-v3"] ∧
    (MistralAi.transcribe ⟨["a", "b"], true⟩ (fun _ => .ok "words") true
        (some "whisper-large-v3") ["a", "b"]).attempted = ["whisper-large-v3"] :=
  ⟨Or.inr ⟨"whisper-large-v3", rfl, by decide⟩,
    c10_transcribe_single_model ⟨["a", "b"], true⟩ (fun _ => .ok "words")
      (some "whisper-large-v3") ["a", "b"]
      (Or.inr ⟨"whisper-large-v3", rfl, by decide⟩)⟩

/-- Claim C10 counterexample: an explicitly passed falsy model (the empty
string is not undefined, so the JavaScript default parameter does not
apply, and the empty string is falsy) sends the call into the
`this.models.length ? this.models : ...` branch: with firstToFinish true
and two configured models, both roster models are attempted (raced), so the
candidate list is not a singleton and the roster is iterated. -/
theorem c10_counterexample :
    transcribeModels "whisper-large-v3-turbo" ["a", "b"] (some "") =
      ["a", "b"] ∧
    (GroqAi.transcribe ⟨["a", "b"], true⟩
        (fun m => .error (.providerError m "boom")) true (some "")
        ["a", "b"]).attempted = ["a", "b"] ∧
    (MistralAi.transcribe ⟨["a", "b"], true⟩
        (fun m => .error (.providerError m "boom")) true (some "")
        ["a", "b"]).attempted = ["a", "b"] := by
  refine ⟨rfl, ?_, ?_⟩ <;> rfl

/-- Claim C4: a network call that succeeds with empty or whitespace-only
extracted text is classified as a failure exactly like a provider error: it
is never the success, the sequential loop moves on to the next candidate
with the same bookkeeping as any failure, and a racing completion only
updates the last-failure bookkeeping, never the resolved text or winner. -/
theorem c4_empty_text_reclassified (net : Net) (m : String) (raw : String)
    (hok : net m = .ok raw) (hempty : jsTrim raw = "") :
    runAttempt net m = .failure (.emptyResponse m) ∧
    (∀ (rest : List String) (lastErr : Option AiError),
      (seqGo (runAttempt net) (m :: rest) lastErr).result =
          (seqGo (runAttempt net) rest (some (.emptyResponse m))).result ∧
      (seqGo (runAttempt net) (m :: rest) lastErr).winner =
          (seqGo (runAttempt net) rest (some (.emptyResponse m))).winner ∧
      (seqGo (runAttempt net) (m :: rest) lastErr).attempted =
          m :: (seqGo (runAttempt net) rest (some (.emptyResponse m))).attempted ∧
      (seqGo (runAttempt net) (m :: rest) lastErr).failLog =
          (m, .emptyResponse m) ::
            (seqGo (runAttempt net) rest (some (.emptyResponse m))).failLog) ∧
    (∀ st : RaceState,
      (raceStep (runAttempt net) st m).resolvedText = st.resolvedText ∧
      (raceStep (runAttempt net) st m).winner = st.winner ∧
      (raceStep (runAttempt net) st m).lastErr = some (.emptyResponse m) ∧
      (raceStep (runAttempt net) st m).failLog =
        st.failLog ++ [(m, .emptyResponse m)]) := by
  have hrun : runAttempt net m = .failure (.emptyResponse m) := by
    simp [runAttempt, hok, hempty]
  refine ⟨hrun, ?_, ?_⟩
  · intro rest lastErr
    simp [seqGo, hrun]
  · intro st
    simp only [raceStep, hrun, raceFinally]
    split <;> simp

/-- Claim C4 witness: a model answering only whitespace is recorded as an
empty-response failure, the sequential loop falls through to a following
model, and a racing step leaves the resolved state alone. -/
theorem c4_witness :
    runAttempt
        (fun m => if m = "W" then .ok "  " else .ok "hi") "W" =
      .failure (.emptyResponse "W") ∧
    (seqGo (runAttempt (fun m => if m = "W" then .ok "  " else .ok "hi"))
        ["W", "B"] none).result =
      (seqGo (runAttempt (fun m => if m = "W" then .ok "  " else .ok "hi"))
        ["B"] (some (.emptyResponse "W"))).result ∧
    (raceStep (runAttempt (fun m => if m = "W" then .ok "  " else .ok "hi"))
        (raceInit 2) "W").resolvedText = (raceInit 2).resolvedText ∧
    (raceStep (runAttempt (fun m => if m = "W" then .ok "  " else .ok "hi"))
        (raceInit 2) "W").lastErr = some (.emptyResponse "W") := by
  have h := c4_empty_text_reclassified
    (fun m => if m = "W" then .ok "  " else .ok "hi") "W" "  "
    (by decide) (by decide)
  exact ⟨h.1, (h.2.1 ["B"] none).1, (h.2.2 (raceInit 2)).1,
    (h.2.2 (raceInit 2)).2.2.1⟩

/-! ## Racing lemmas -/

theorem raceStep_of_settled (att : String → Outcome) (st : RaceState)
    (m : String) (h : st.settled = true) :
    (raceStep att st m).settled = true ∧
    (raceStep att st m).resolvedText = st.resolvedText ∧
    (raceStep att st m).winner = st.winner ∧
    (raceStep att st m).settleCount = st.settleCount := by
  cases hatt : att m <;> simp [raceStep, raceFinally, h, hatt]

theorem raceFold_of_settled (att : String → Outcome) (l : List String) :
    ∀ st : RaceState, st.settled = true →
      (l.foldl (raceStep att) st).settled = true ∧
      (l.foldl (raceStep att) st).resolvedText = st.resolvedText ∧
      (l.foldl (raceStep att) st).winner = st.winner ∧
      (l.foldl (raceStep att) st).settleCount = st.settleCount := by
  induction l with
  | nil =>
    intro st h
    simp [h]
  | cons m l ih =>
    intro st h
    have h1 := raceStep_of_settled att st m h
    have h2 := ih (raceStep att st m) h1.1
    simp only [List.foldl_cons]
    exact ⟨h2.1, h2.2.1.trans h1.2.1, h2.2.2.1.trans h1.2.2.1,
      h2.2.2.2.trans h1.2.2.2⟩

theorem raceStep_fail_alive (att : String → Outcome) (st : RaceState)
    (m : String) (e : AiError) (he : att m = .failure e)
    (hs : st.settled = false) (hrem : 1 < st.remaining) :
    (raceStep att st m).settled = false ∧
    (raceStep att st m).resolvedText = st.resolvedText ∧
    (raceStep att st m).winner = st.winner ∧
    (raceStep att st m).settleCount = st.settleCount ∧
    (raceStep att st m).remaining = st.remaining - 1 ∧
    (raceStep att st m).lastErr = some e := by
  have hne : ¬(st.remaining - 1 = 0) := by omega
  simp [raceStep, he, raceFinally, hs, hne]

theorem raceFold_fail_alive (att : String → Outcome) (l : List String) :
    ∀ st : RaceState, (∀ m ∈ l, (att m).isFailure = true) →
      st.settled = false → l.length < st.remaining →
      (l.foldl (raceStep att) st).settled = false ∧
      (l.foldl (raceStep att) st).resolvedText = st.resolvedText ∧
      (l.foldl (raceStep att) st).winner = st.winner ∧
      (l.foldl (raceStep att) st).settleCount = st.settleCount ∧
      (l.foldl (raceStep att) st).remaining = st.remaining - l.length := by
  induction l with
  | nil =>
    intro st _ hs _
    simp [hs]
  | cons m l ih =>
    intro st hfail hs hrem
    obtain ⟨e, he⟩ := isFailure_exists (hfail m (by simp))
    have hlen : l.length + 1 < st.remaining := by
      simpa [Nat.succ_eq_add_one] using hrem
    have h1 := raceStep_fail_alive att st m e he hs (by omega)
    have h2 := ih (raceStep att st m)
      (fun x hx => hfail x (by simp [hx])) h1.1 (by omega)
    simp only [List.foldl_cons]
    refine ⟨h2.1, h2.2.1.trans h1.2.1, h2.2.2.1.trans h1.2.2.1,
      h2.2.2.2.1.trans h1.2.2.2.1, ?_⟩
    rw [h2.2.2.2.2, h1.2.2.2.2.1]
    simp only [List.length_cons]
    omega

theorem raceFold_all_fail (att : String → Outcome) (slast : String) :
    ∀ (sinit : List String) (st : RaceState),
      (∀ m ∈ sinit ++ [slast], (att m).isFailure = true) →
      st.settled = false → st.resolvedText = none → st.winner = none →
      st.remaining = (sinit ++ [slast]).length →
      ((sinit ++ [slast]).foldl (raceStep att) st).resolvedText = none ∧
      ((sinit ++ [slast]).foldl (raceStep att) st).winner = none ∧
      ((sinit ++ [slast]).foldl (raceStep att) st).rejectedWith =
        some ((att slast).causeD) ∧
      ((sinit ++ [slast]).foldl (raceStep att) st).settleCount =
        st.settleCount + 1 := by
  intro sinit
  induction sinit with
  | nil =>
    intro st hfail hs hrt hw hrem
    obtain ⟨e, he⟩ := isFailure_exists (hfail slast (by simp))
    have hrem1 : st.remaining = 1 := by simpa using hrem
    simp [raceStep, he, raceFinally, hs, hrt, hw, hrem1, Outcome.causeD]
  | cons m sinit ih =>
    intro st hfail hs hrt hw hrem
    obtain ⟨e, he⟩ := isFailure_exists (hfail m (by simp))
    have hrem2 : st.remaining = sinit.length + 1 + 1 := by
      simpa using hrem
    have h1 := raceStep_fail_alive att st m e he hs (by omega)
    have h2 := ih (raceStep att st m)
      (fun x hx => hfail x (by simp at hx ⊢; tauto))
      h1.1 (h1.2.1.trans hrt) (h1.2.2.1.trans hw)
      (by rw [h1.2.2.2.2.1]; simp [hrem2])
    simp only [List.cons_append, List.foldl_cons]
    exact ⟨h2.1, h2.2.1, h2.2.2.1, h2.2.2.2.trans (by rw [h1.2.2.2.1])⟩

/-- Claim C1: with firstToFinish false or a single-entry roster, ask tries
the models strictly in roster order, stops at the first success, returns its
text, records the winning model as lastUsedModel, starts no attempt after
the winner, and logs exactly one failure per model attempted before the
winner. -/
theorem c1_sequential_first_success (net : Net) (cfg : AiConfig)
    (pre post : List String) (w t : String) (schedule : List String)
    (hmode : cfg.firstToFinish = false ∨ cfg.models.length = 1)
    (hros : cfg.models = pre ++ w :: post)
    (hfail : ∀ m ∈ pre, (runAttempt net m).isFailure = true)
    (hwin : runAttempt net w = .success t) :
    Ai.ask cfg net schedule =
      { result := .ok t, winner := some w, attempted := pre ++ [w],
        failLog := pre.map (fun m => (m, (runAttempt net m).causeD)),
        settleCount := 1 } := by
  have hne : cfg.models ≠ [] := by
    rw [hros]; exact List.append_ne_nil_of_right_ne_nil pre (by simp)
  simp only [Ai.ask, resolveStrategy, if_neg hne, if_pos hmode]
  rw [hros]
  exact seqGo_wins (runAttempt net) w t post hwin pre none hfail

/-- Claim C1 witness: models A and B fail (provider error and timeout), C
answers hi; the call resolves to hi with winner C, attempts exactly A, B, C
and logs exactly the two failures of A and B. -/
theorem c1_witness :
    Ai.ask ⟨["A", "B", "C"], false⟩
        (fun m =>
          if m = "A" then .error (.providerError "A" "x")
          else if m = "B" then .error (.timeout "B")
          else .ok "hi") [] =
      { result := .ok "hi", winner := some "C", attempted := ["A", "B", "C"],
        failLog := [("A", .providerError "A" "x"), ("B", .timeout "B")],
        settleCount := 1 } := by
  have h := c1_sequential_first_success
    (fun m =>
      if m = "A" then .error (.providerError "A" "x")
      else if m = "B" then .error (.timeout "B")
      else .ok "hi")
    ⟨["A", "B", "C"], false⟩ ["A", "B"] [] "C" "hi" []
    (Or.inl rfl) rfl (by decide) (by decide)
  exact h.trans (by decide)

/-- Claim C3: when every configured model fails, ask rejects with the error
of the last attempt to fail: in sequential mode the failure of the last
roster entry, in racing mode the failure of the chronologically last
completion of the schedule, never the first recorded failure. -/
theorem c3_exhaustion_last_cause (net : Net) (init : List String)
    (lastM : String)
    (hfail : ∀ m ∈ init ++ [lastM], (runAttempt net m).isFailure = true) :
    (∀ (ftf : Bool) (schedule : List String),
        ftf = false ∨ (init ++ [lastM]).length = 1 →
        (Ai.ask ⟨init ++ [lastM], ftf⟩ net schedule).result =
          .error ((runAttempt net lastM).causeD)) ∧
    (∀ (sinit : List String) (slast : String),
        1 < (init ++ [lastM]).length →
        (sinit ++ [slast]).Perm (init ++ [lastM]) →
        (Ai.ask ⟨init ++ [lastM], true⟩ net (sinit ++ [slast])).result =
          .error ((runAttempt net slast).causeD)) := by
  have hne : init ++ [lastM] ≠ [] :=
    List.append_ne_nil_of_right_ne_nil init (by simp)
  constructor
  · intro ftf schedule hmode
    have hmode2 : (⟨init ++ [lastM], ftf⟩ : AiConfig).firstToFinish = false ∨
        (⟨init ++ [lastM], ftf⟩ : AiConfig).models.length = 1 := hmode
    simp only [Ai.ask, resolveStrategy, if_neg hne, if_pos hmode2]
    rw [seqGo_all_fail (runAttempt net) lastM init none hfail]
  · intro sinit slast hlen hperm
    have hcond : ¬((⟨init ++ [lastM], true⟩ : AiConfig).firstToFinish = false ∨
        (⟨init ++ [lastM], true⟩ : AiConfig).models.length = 1) := by
      rintro (h | h)
      · exact Bool.noConfusion h
      · have h2 : (init ++ [lastM]).length = 1 := h
        omega
    have hfail2 : ∀ m ∈ sinit ++ [slast], (runAttempt net m).isFailure = true :=
      fun m hm => hfail m (hperm.mem_iff.mp hm)
    have hrem : (raceInit (init ++ [lastM]).length).remaining =
        (sinit ++ [slast]).length := by
      simp [raceInit, hperm.length_eq]
    have h := raceFold_all_fail (runAttempt net) slast sinit
      (raceInit (init ++ [lastM]).length) hfail2 rfl rfl rfl hrem
    simp only [Ai.ask, resolveStrategy, if_neg hne, if_neg hcond, raceRun]
    rw [h.1, h.2.2.1]
    rfl

/-- Claim C3 witness: models A and B both fail, A with a provider error and
B with a timeout; sequentially and in a race where B completes last, the
thrown error is the timeout of B, not the first recorded failure of A. -/
theorem c3_witness :
    (Ai.ask ⟨["A", "B"], false⟩
        (fun m =>
          if m = "A" then .error (.providerError "A" "x")
          else .error (.timeout "B")) ["A", "B"]).result =
      .error (.timeout "B") ∧
    (Ai.ask ⟨["A", "B"], true⟩
        (fun m =>
          if m = "A" then .error (.providerError "A" "x")
          else .error (.timeout "B")) ["A", "B"]).result =
      .error (.timeout "B") := by
  have h := c3_exhaustion_last_cause
    (fun m =>
      if m = "A" then .error (.providerError "A" "x")
      else .error (.timeout "B")) ["A"] "B" (by decide)
  constructor
  · exact (h.1 false ["A", "B"] (Or.inl rfl)).trans (by decide)
  · exact (h.2 ["A"] "B" (by decide) (by decide)).trans (by decide)

/-- Claim C2: in racing mode (firstToFinish true, roster longer than one)
the overall result settles at most once: the first completion that is a
non-empty success fixes the resolved text and winning model, later
completions (successes included) never change the resolved winner, and the
settle transition fires exactly once. -/
theorem c2_race_settles_once (net : Net) (cfg : AiConfig)
    (pre post : List String) (s t : String)
    (hftf : cfg.firstToFinish = true) (hlen : 1 < cfg.models.length)
    (hperm : (pre ++ s :: post).Perm cfg.models)
    (hfail : ∀ m ∈ pre, (runAttempt net m).isFailure = true)
    (hwin : runAttempt net s = .success t) :
    (Ai.ask cfg net (pre ++ s :: post)).result = .ok t ∧
    (Ai.ask cfg net (pre ++ s :: post)).winner = some s ∧
    (Ai.ask cfg net (pre ++ s :: post)).settleCount = 1 := by
  have hne : cfg.models ≠ [] := by
    intro h
    rw [h] at hlen
    simp at hlen
  have hcond : ¬(cfg.firstToFinish = false ∨ cfg.models.length = 1) := by
    rintro (h | h)
    · rw [hftf] at h
      exact Bool.noConfusion h
    · omega
  have hlen0 : (raceInit cfg.models.length).remaining =
      pre.length + (post.length + 1) := by
    simp [raceInit, ← hperm.length_eq]
  have h1 := raceFold_fail_alive (runAttempt net) pre
    (raceInit cfg.models.length) hfail rfl (by rw [hlen0]; omega)
  have hs1 :
      (raceStep (runAttempt net)
          (pre.foldl (raceStep (runAttempt net)) (raceInit cfg.models.length))
          s).settled = true ∧
      (raceStep (runAttempt net)
          (pre.foldl (raceStep (runAttempt net)) (raceInit cfg.models.length))
          s).resolvedText = some t ∧
      (raceStep (runAttempt net)
          (pre.foldl (raceStep (runAttempt net)) (raceInit cfg.models.length))
          s).winner = some s ∧
      (raceStep (runAttempt net)
          (pre.foldl (raceStep (runAttempt net)) (raceInit cfg.models.length))
          s).settleCount = 1 := by
    have hsc0 : (pre.foldl (raceStep (runAttempt net))
        (raceInit cfg.models.length)).settleCount = 0 := by
      rw [h1.2.2.2.1]; rfl
    simp [raceStep, hwin, raceFinally, h1.1, hsc0]
  have h2 := raceFold_of_settled (runAttempt net) post
    (raceStep (runAttempt net)
      (pre.foldl (raceStep (runAttempt net)) (raceInit cfg.models.length)) s)
    hs1.1
  simp only [Ai.ask, resolveStrategy, if_neg hne, if_neg hcond, raceRun,
    List.foldl_append, List.foldl_cons]
  rw [h2.2.1, h2.2.2.1, h2.2.2.2, hs1.2.1, hs1.2.2.1, hs1.2.2.2]
  exact ⟨rfl, rfl, rfl⟩

/-- Claim C2 witness: models A, B, C race; B completes first with hi, A
fails, then C also succeeds later; the call resolves to hi with winner B,
with exactly one settle transition. -/
theorem c2_witness :
    (Ai.ask ⟨["A", "B", "C"], true⟩
        (fun m =>
          if m = "A" then .error (.timeout "A")
          else if m = "B" then .ok "hi"
          else .ok "later") ["B", "A", "C"]).result = .ok "hi" ∧
    (Ai.ask ⟨["A", "B", "C"], true⟩
        (fun m =>
          if m = "A" then .error (.timeout "A")
          else if m = "B" then .ok "hi"
          else .ok "later") ["B", "A", "C"]).winner = some "B" ∧
    (Ai.ask ⟨["A", "B", "C"], true⟩
        (fun m =>
          if m = "A" then .error (.timeout "A")
          else if m = "B" then .ok "hi"
          else .ok "later") ["B", "A", "C"]).settleCount = 1 :=
  c2_race_settles_once
    (fun m =>
      if m = "A" then .error (.timeout "A")
      else if m = "B" then .ok "hi"
      else .ok "later")
    ⟨["A", "B", "C"], true⟩ [] ["A", "C"] "B" "hi" rfl (by decide)
    (by decide) (by decide) (by decide)

/-! ## Memory store lemmas -/

theorem orderedInsert_append_last {α : Type _} (r : α → α → Prop)
    [DecidableRel r] (a : α) :
    ∀ l : List α, (∀ b ∈ l, ¬ r a b) → List.orderedInsert r a l = l ++ [a] := by
  intro l
  induction l with
  | nil => intro _; rfl
  | cons b l ih =>
    intro h
    have hb : ¬ r a b := h b (by simp)
    simp [List.orderedInsert, hb, ih (fun x hx => h x (by simp [hx]))]

theorem sortDesc_eq_reverse :
    ∀ l : List Doc, l.Pairwise (fun a b => a.createdAt < b.createdAt) →
      sortDescByCreatedAt l = l.reverse := by
  intro l
  induction l with
  | nil => intro _; rfl
  | cons a l ih =>
    intro hp
    have h1 : sortDescByCreatedAt l = l.reverse := ih hp.of_cons
    show List.orderedInsert _ a
      (List.insertionSort (fun a b => b.createdAt ≤ a.createdAt) l) =
        (a :: l).reverse
    rw [show List.insertionSort (fun a b => b.createdAt ≤ a.createdAt) l =
      sortDescByCreatedAt l from rfl, h1,
      orderedInsert_append_last _ a l.reverse ?hb]
    · simp
    case hb =>
      intro b hb
      have := (List.pairwise_cons.mp hp).1 b (List.mem_reverse.mp hb)
      omega

theorem mkDocs_mem (c s : String) :
    ∀ (l : List Msg) (k : Nat) (d : Doc), d ∈ mkDocs c s k l →
      d.chatId = c ∧ d.scope = s ∧ k ≤ d.createdAt ∧
        d.createdAt < k + l.length ∧
        ∃ m ∈ l, d.role = m.role ∧ d.content = m.content := by
  intro l
  induction l with
  | nil => intro k d hd; simp [mkDocs] at hd
  | cons m l ih =>
    intro k d hd
    simp only [mkDocs, List.mem_cons] at hd
    rcases hd with hd | hd
    · subst hd
      refine ⟨rfl, rfl, le_refl _, ?_, ⟨m, by simp, rfl, rfl⟩⟩
      simp only [List.length_cons]
      omega
    · obtain ⟨h1, h2, h3, h4, m', hm', h5, h6⟩ := ih (k + 1) d hd
      refine ⟨h1, h2, by omega, ?_, ⟨m', by simp [hm'], h5, h6⟩⟩
      simp only [List.length_cons]
      omega

theorem mkDocs_pairwise (c s : String) :
    ∀ (l : List Msg) (k : Nat),
      (mkDocs c s k l).Pairwise (fun a b => a.createdAt < b.createdAt) := by
  intro l
  induction l with
  | nil => intro k; simp [mkDocs]
  | cons m l ih =>
    intro k
    simp only [mkDocs]
    refine List.pairwise_cons.mpr ⟨?_, ih (k + 1)⟩
    intro b hb
    have h := (mkDocs_mem c s l (k + 1) b hb).2.2.1
    show k < b.createdAt
    omega

theorem mkDocs_matches (c s : String) {l : List Msg} {k : Nat} {d : Doc}
    (hd : d ∈ mkDocs c s k l) : docMatches c s d = true := by
  obtain ⟨h1, h2, -⟩ := mkDocs_mem c s l k d hd
  simp [docMatches, h1, h2]

theorem reverse_drop_eq_take_reverse {α : Type _} (l : List α) (k : Nat) :
    l.reverse.drop k = (l.take (l.length - k)).reverse := by
  rcases le_or_lt l.length k with h | h
  · rw [List.drop_eq_nil_of_le (by simpa using h), Nat.sub_eq_zero_of_le h,
      List.take_zero, List.reverse_nil]
  · have hTD := List.take_append_drop (l.length - k) l
    calc l.reverse.drop k
        = ((l.take (l.length - k) ++ l.drop (l.length - k)).reverse).drop k := by
          rw [hTD]
      _ = ((l.drop (l.length - k)).reverse ++
            (l.take (l.length - k)).reverse).drop k := by
          rw [List.reverse_append]
      _ = (l.take (l.length - k)).reverse := by
          refine List.drop_left' ?_
          simp only [List.length_reverse, List.length_drop]
          omega

theorem filter_eq_drop_of_split {α : Type _} (p : α → Bool) (l : List α)
    (n : Nat) (h1 : ∀ d ∈ l.take n, p d = false)
    (h2 : ∀ d ∈ l.drop n, p d = true) :
    l.filter p = l.drop n := by
  conv_lhs => rw [← List.take_append_drop n l]
  rw [List.filter_append,
    List.filter_eq_nil_iff.mpr (fun d hd => by simp [h1 d hd]),
    List.filter_eq_self.mpr h2, List.nil_append]

theorem filter_and_comm {α : Type _} (p q : α → Bool) (l : List α) :
    l.filter (fun a => p a && q a) = l.filter (fun a => q a && p a) :=
  List.filter_congr (fun x _ => Bool.and_comm (p x) (q x))

theorem appendCore_spec (st : Store) (c s : String) (valid : List Msg)
    (hwf : st.Wf) :
    partitionOf (appendCore st c s valid) c s =
      (partitionOf st c s ++ mkDocs c s st.clock valid).drop
        ((partitionOf st c s ++ mkDocs c s st.clock valid).length - 80) ∧
    (appendCore st c s valid).docs.filter (fun d => !(docMatches c s d)) =
      st.docs.filter (fun d => !(docMatches c s d)) := by
  have ha : (st.docs ++ mkDocs c s st.clock valid).filter (docMatches c s) =
      partitionOf st c s ++ mkDocs c s st.clock valid := by
    rw [List.filter_append,
      List.filter_eq_self.mpr (fun d hd => mkDocs_matches c s hd)]
    rfl
  have hApw : (partitionOf st c s ++ mkDocs c s st.clock valid).Pairwise
      (fun a b => a.createdAt < b.createdAt) := by
    refine List.pairwise_append.mpr
      ⟨List.Pairwise.sublist (List.filter_sublist st.docs) hwf.1,
        mkDocs_pairwise c s valid st.clock, ?_⟩
    intro a haP b hbN
    have h1 : a ∈ st.docs := (List.mem_filter.mp haP).1
    have h2 := hwf.2 a h1
    have h3 := (mkDocs_mem c s valid st.clock b hbN).2.2.1
    omega
  have hcross : ∀ e ∈ partitionOf st c s ++ mkDocs c s st.clock valid,
      ∀ d ∈ st.docs, docMatches c s d = false →
        e.createdAt ≠ d.createdAt := by
    intro e he d hd hmatch heq
    rcases List.mem_append.mp he with heP | heN
    · have heDocs : e ∈ st.docs := (List.mem_filter.mp heP).1
      have hematch : docMatches c s e = true := (List.mem_filter.mp heP).2
      have hnd : (st.docs.map (fun d => d.createdAt)).Nodup :=
        List.pairwise_map.mpr (hwf.1.imp fun h => Nat.ne_of_lt h)
      have hed : e = d := List.inj_on_of_nodup_map hnd heDocs hd heq
      rw [hed, hmatch] at hematch
      exact Bool.noConfusion hematch
    · have h1 := (mkDocs_mem c s valid st.clock e heN).2.2.1
      have h2 := hwf.2 d hd
      omega
  have hsorted :
      (sortDescByCreatedAt
          ((st.docs ++ mkDocs c s st.clock valid).filter
            (docMatches c s))).drop 80 =
        ((partitionOf st c s ++ mkDocs c s st.clock valid).take
          ((partitionOf st c s ++
            mkDocs c s st.clock valid).length - 80)).reverse := by
    rw [ha, sortDesc_eq_reverse _ hApw, reverse_drop_eq_take_reverse]
  have hmemA : ∀ x ∈ (partitionOf st c s ++ mkDocs c s st.clock valid).take
        ((partitionOf st c s ++ mkDocs c s st.clock valid).length - 80),
      x ∈ partitionOf st c s ++ mkDocs c s st.clock valid :=
    fun x hx => (List.take_sublist _ _).subset hx
  have hF1 : ∀ d ∈ (partitionOf st c s ++ mkDocs c s st.clock valid).take
        ((partitionOf st c s ++ mkDocs c s st.clock valid).length - 80),
      (!((((partitionOf st c s ++ mkDocs c s st.clock valid).take
            ((partitionOf st c s ++
              mkDocs c s st.clock valid).length - 80)).reverse.map
          (fun d => d.createdAt)).contains d.createdAt)) = false := by
    intro d hd
    have hmem : d.createdAt ∈
        ((partitionOf st c s ++ mkDocs c s st.clock valid).take
          ((partitionOf st c s ++
            mkDocs c s st.clock valid).length - 80)).reverse.map
          (fun d => d.createdAt) :=
      List.mem_map.mpr ⟨d, List.mem_reverse.mpr hd, rfl⟩
    simpa using hmem
  have hF2 : ∀ d ∈ (partitionOf st c s ++ mkDocs c s st.clock valid).drop
        ((partitionOf st c s ++ mkDocs c s st.clock valid).length - 80),
      (!((((partitionOf st c s ++ mkDocs c s st.clock valid).take
            ((partitionOf st c s ++
              mkDocs c s st.clock valid).length - 80)).reverse.map
          (fun d => d.createdAt)).contains d.createdAt)) = true := by
    intro d hd
    have hnotmem : d.createdAt ∉
        ((partitionOf st c s ++ mkDocs c s st.clock valid).take
          ((partitionOf st c s ++
            mkDocs c s st.clock valid).length - 80)).reverse.map
          (fun d => d.createdAt) := by
      intro hmem
      obtain ⟨e, he, heq⟩ := List.mem_map.mp hmem
      have heT := List.mem_reverse.mp he
      have hpw2 : ((partitionOf st c s ++ mkDocs c s st.clock valid).take
            ((partitionOf st c s ++ mkDocs c s st.clock valid).length - 80) ++
          (partitionOf st c s ++ mkDocs c s st.clock valid).drop
            ((partitionOf st c s ++
              mkDocs c s st.clock valid).length - 80)).Pairwise
          (fun a b => a.createdAt < b.createdAt) := by
        rw [List.take_append_drop]
        exact hApw
      have hlt := (List.pairwise_append.mp hpw2).2.2 e heT d hd
      omega
    simpa using hnotmem
  constructor
  · conv_lhs => simp only [appendCore, partitionOf]
    rw [hsorted, List.filter_filter, filter_and_comm, ← List.filter_filter,
      ha]
    exact filter_eq_drop_of_split _ _ _ hF1 hF2
  · conv_lhs => simp only [appendCore]
    rw [hsorted, List.filter_filter, List.filter_append]
    have hNnil : ∀ q : Doc → Bool,
        (mkDocs c s st.clock valid).filter
          (fun a => (!(docMatches c s a)) && q a) = [] :=
      fun q => List.filter_eq_nil_iff.mpr
        (fun d hd => by simp [mkDocs_matches c s hd])
    rw [hNnil, List.append_nil]
    refine List.filter_congr (fun d hd => ?_)
    cases hmatch : docMatches c s d with
    | true => simp [hmatch]
    | false =>
      have hnot : d.createdAt ∉
          ((partitionOf st c s ++ mkDocs c s st.clock valid).take
            ((partitionOf st c s ++
              mkDocs c s st.clock valid).length - 80)).reverse.map
            (fun d => d.createdAt) := by
        intro hmem
        obtain ⟨e, he, heq⟩ := List.mem_map.mp hmem
        exact hcross e (hmemA e (List.mem_reverse.mp he)) d hd hmatch heq
      have hpred : (!((((partitionOf st c s ++
            mkDocs c s st.clock valid).take
            ((partitionOf st c s ++
              mkDocs c s st.clock valid).length - 80)).reverse.map
          (fun d => d.createdAt)).contains d.createdAt)) = true := by
        simpa using hnot
      rw [hpred]
      simp

/-- Claim C6: after appendMessages inserts its valid turns, the
`(scope, chatId)` partition equals the newest 80 documents of the old
partition plus the inserted ones (precisely the oldest excess deleted), so
it holds at most 80 documents; documents outside the partition are
untouched. -/
theorem c6_append_prunes_to_80 (st : Store) (chatId scope : String)
    (messages : List Msg) (hwf : st.Wf) (hc : chatId ≠ "") (hs : scope ≠ "")
    (hv : messages.filter Msg.valid ≠ []) :
    partitionOf (appendMessages st chatId scope messages) chatId scope =
      (partitionOf st chatId scope ++
        mkDocs chatId scope st.clock (messages.filter Msg.valid)).drop
        ((partitionOf st chatId scope ++
          mkDocs chatId scope st.clock (messages.filter Msg.valid)).length -
          80) ∧
    (partitionOf (appendMessages st chatId scope messages)
        chatId scope).length ≤ 80 ∧
    (appendMessages st chatId scope messages).docs.filter
        (fun d => !(docMatches chatId scope d)) =
      st.docs.filter (fun d => !(docMatches chatId scope d)) := by
  have hmsg : messages ≠ [] := by
    intro h
    rw [h] at hv
    simp at hv
  have happ : appendMessages st chatId scope messages =
      appendCore st chatId scope (messages.filter Msg.valid) := by
    simp only [appendMessages]
    rw [if_neg (by push_neg; exact ⟨hc, hs, hmsg⟩), if_neg hv]
  rw [happ]
  have h := appendCore_spec st chatId scope (messages.filter Msg.valid) hwf
  refine ⟨h.1, ?_, h.2⟩
  rw [h.1, List.length_drop]
  omega

/-- Claim C6 witness: a well-formed store whose partition already holds 80
documents receives one more valid turn; the theorem applies and bounds the
partition at 80 documents, and direct evaluation shows the oldest document
is evicted while the new one is present. -/
theorem c6_witness :
    Store.Wf
      ⟨(List.range 80).map
        (fun i => ⟨"c", "s", "user", .str "hi", i⟩), 80⟩ ∧
    (partitionOf
        (appendMessages
          ⟨(List.range 80).map
            (fun i => ⟨"c", "s", "user", .str "hi", i⟩), 80⟩
          "c" "s" [⟨"user", .str "turn81"⟩]) "c" "s").length ≤ 80 :=
  ⟨by decide,
    (c6_append_prunes_to_80
      ⟨(List.range 80).map (fun i => ⟨"c", "s", "user", .str "hi", i⟩), 80⟩
      "c" "s" [⟨"user", .str "turn81"⟩]
      (by decide) (by decide) (by decide) (by decide)).2.1⟩

/-- Claim C7, amended: a turn is persisted only if both its role and its
content are JavaScript-truthy (content non-null, and when a string
non-empty; note that an empty array counts as truthy and is persisted), a
turn failing that filter is dropped entirely before storage, and every
document that reaches the store has a truthy role and truthy content. -/
theorem c7_persisted_docs_truthy (st : Store) (chatId scope : String)
    (messages : List Msg)
    (hinv : ∀ d ∈ st.docs, d.role ≠ "" ∧ d.content.jsTruthy = true) :
    (∀ d ∈ (appendMessages st chatId scope messages).docs,
        d.role ≠ "" ∧ d.content.jsTruthy = true) ∧
    (∀ d ∈ (appendMessages st chatId scope messages).docs,
        d ∈ st.docs ∨
          ∃ m ∈ messages, Msg.valid m = true ∧ d.role = m.role ∧
            d.content = m.content) := by
  have hmem : ∀ d ∈ (appendMessages st chatId scope messages).docs,
      d ∈ st.docs ∨
        ∃ m ∈ messages, Msg.valid m = true ∧ d.role = m.role ∧
          d.content = m.content := by
    intro d hd
    simp only [appendMessages] at hd
    split at hd
    · exact Or.inl hd
    · split at hd
      · exact Or.inl hd
      · simp only [appendCore] at hd
        have hd2 := (List.mem_filter.mp hd).1
        rcases List.mem_append.mp hd2 with h | h
        · exact Or.inl h
        · obtain ⟨-, -, -, -, m, hm, hrole, hcontent⟩ :=
            mkDocs_mem chatId scope (messages.filter Msg.valid) st.clock d h
          have hm2 := List.mem_filter.mp hm
          exact Or.inr ⟨m, hm2.1, hm2.2, hrole, hcontent⟩
  refine ⟨?_, hmem⟩
  intro d hd
  rcases hmem d hd with h | ⟨m, _, hvalid, hrole, hcontent⟩
  · exact hinv d h
  · simp only [Msg.valid, Bool.and_eq_true] at hvalid
    refine ⟨?_, by rw [hcontent]; exact hvalid.2⟩
    rw [hrole]
    simpa using hvalid.1

/-- Claim C7 witness: a store already holding one truthy document receives
three turns, of which only the first is valid (the second has an empty
role, the third null content); every stored document keeps a truthy role
and truthy content, and each stored document is either old or comes whole
from one valid turn. -/
theorem c7_witness :
    (∀ d ∈ ([⟨"x", "s", "user", .str "old", 0⟩] : List Doc),
        d.role ≠ "" ∧ d.content.jsTruthy = true) ∧
    (∀ d ∈ (appendMessages ⟨[⟨"x", "s", "user", .str "old", 0⟩], 1⟩ "c" "s"
        [⟨"user", .str "hi"⟩, ⟨"", .str "skip"⟩, ⟨"user", .null⟩]).docs,
        d.role ≠ "" ∧ d.content.jsTruthy = true) :=
  ⟨by decide,
    (c7_persisted_docs_truthy ⟨[⟨"x", "s", "user", .str "old", 0⟩], 1⟩
      "c" "s" [⟨"user", .str "hi"⟩, ⟨"", .str "skip"⟩, ⟨"user", .null⟩]
      (by decide)).1⟩

/-- Claim C7 counterexample: a turn whose content is the empty array (an
empty sequence of content parts) is non-null but empty, yet it passes the
truthiness filter of appendMessages (every JavaScript array is truthy) and
is persisted, so a document with empty content reaches the store,
contradicting the claim that a turn is persisted only if its content is
non-empty. -/
theorem c7_counterexample :
    (appendMessages ⟨[], 0⟩ "c" "s" [⟨"user", .arr []⟩]).docs =
      [⟨"c", "s", "user", .arr [], 0⟩] ∧
    Content.isEmptyVal (.arr []) = true := by
  constructor
  · decide
  · rfl
